import Mathlib

/-!
Verification of the MaskFormer matching-and-loss subsystem and the
inference-time panoptic assembly algorithm
(`src/transformers/models/maskformer/modeling_maskformer.py`).

The pairwise cost functions and the Hungarian matcher operate on real
tensors (softmax and sigmoid are transcendental), so they are embedded
over `ℝ`.  The panoptic assembly and the loss normalisation count are
embedded over `ℚ`, which keeps them fully executable: every probability,
score and threshold appearing there is an arbitrary number, and the
algorithms only compare, scale, count and divide.
-/

namespace MaskFormer

/-! ## Generic list helpers -/

/-- Sum of elementwise products (a single einsum `c,c->` contraction). -/
def dot (a b : List ℝ) : ℝ := (List.zipWith (· * ·) a b).sum

/-- The einsum contraction `nc,mc->nm`: every row of `a` against every row of `b`. -/
def einsum_nm (a b : List (List ℝ)) : List (List ℝ) :=
  a.map fun ar => b.map fun br => dot ar br

/-- Elementwise combination of two matrices (torch broadcasting on equal shapes). -/
def zipWith2D {α β γ : Type} (f : α → β → γ) (A : List (List α)) (B : List (List β)) :
    List (List γ) :=
  List.zipWith (List.zipWith f) A B

/-- Scalar multiplication of a matrix. -/
def smul2D (c : ℝ) (A : List (List ℝ)) : List (List ℝ) :=
  A.map fun r => r.map fun x => c * x

/-! ## Pairwise mask cost functions (src lines 177-229), embedded over `ℝ` -/

/-- The logistic function `torch.sigmoid`. -/
noncomputable def sigmoid (x : ℝ) : ℝ := 1 / (1 + Real.exp (-x))

/-- The function `pair_wise_dice_loss` (src lines 177-197): sigmoid the
prediction logits, contract against every target row, and form
`1 - (numerator + 1) / (denominator + 1)` with the broadcast row/column
sums as denominator. -/
noncomputable def pair_wise_dice_loss (inputs labels : List (List ℝ)) : List (List ℝ) :=
  let inputs2 := inputs.map fun r => r.map sigmoid
  let numerator := smul2D 2 (einsum_nm inputs2 labels)
  let denominator := inputs2.map fun i => labels.map fun l => i.sum + l.sum
  zipWith2D (fun n d => 1 - (n + 1) / (d + 1)) numerator denominator

/-- The function `pair_wise_sigmoid_focal_loss` (src lines 200-229): raises
(`none`) when `alpha < 0`; otherwise builds the positive and negative focal
terms from the binary cross-entropy with logits
(`bce(x, 1) = -log (sigmoid x)` and `bce(x, 0) = -log (1 - sigmoid x)`),
contracts them against `labels` and `1 - labels`, and divides by the
flattened spatial size `hw = inputs.shape[1]`. -/
noncomputable def pair_wise_sigmoid_focal_loss (inputs labels : List (List ℝ))
    (alpha gamma : ℝ) : Option (List (List ℝ)) :=
  if alpha < 0 then none
  else
    let hw : ℕ := (inputs.headD []).length
    let focal_pos := inputs.map fun r => r.map fun x =>
      alpha * ((1 - sigmoid x) ^ gamma * (-Real.log (sigmoid x)))
    let focal_neg := inputs.map fun r => r.map fun x =>
      (1 - alpha) * (sigmoid x ^ gamma * (-Real.log (1 - sigmoid x)))
    let loss := zipWith2D (· + ·) (einsum_nm focal_pos labels)
      (einsum_nm focal_neg (labels.map fun r => r.map fun y => 1 - y))
    some (loss.map fun r => r.map fun x => x / (hw : ℝ))

/-! ## Hungarian matcher (src lines 235-312), embedded over `ℝ` -/

/-- Softmax over a class-logit vector (`Tensor.softmax(dim=-1)`). -/
noncomputable def softmax (l : List ℝ) : List ℝ :=
  l.map fun x => Real.exp x / (l.map Real.exp).sum

/-- Nearest-neighbour resampling of a 2D mask to size `h × w`
(`F.interpolate(..., mode="nearest")`: source pixel `floor(dst · src / dst)`). -/
def interpolate_nearest (h w : ℕ) (mask : List (List ℝ)) : List (List ℝ) :=
  (List.range h).map fun i =>
    (List.range w).map fun j =>
      (mask.getD (i * mask.length / h) []).getD (j * (mask.headD []).length / w) 0

/-- Four-way `zip` over the batch dimension. -/
def zip4 {α β γ δ : Type} : List α → List β → List γ → List δ → List (α × β × γ × δ)
  | a :: as, b :: bs, c :: cs, d :: ds => (a, b, c, d) :: zip4 as bs cs ds
  | _, _, _, _ => []

/-- All ways to choose, in order, `n` pairwise distinct elements of `ts`. -/
def selections : ℕ → List ℕ → List (List ℕ)
  | 0, _ => [[]]
  | n + 1, ts => ts.flatMap fun t => (selections n (ts.erase t)).map fun σ => t :: σ

/-- First element minimising `f` (ties keep the earlier element). -/
noncomputable def argminBy {α : Type} (f : α → ℝ) : List α → Option α
  | [] => none
  | x :: xs => some (xs.foldl (fun b y => if f y < f b then y else b) x)

/-- Total cost of the row/column `pairs` in the matrix `cost`. -/
noncomputable def assignCost (cost : List (List ℝ)) (pairs : List (ℕ × ℕ)) : ℝ :=
  (pairs.map fun p => (cost.getD p.1 []).getD p.2 0).sum

/-- Modelled from the spec (§4.2 step 5) and from the documented contract of
`scipy.optimize.linear_sum_assignment`, which the source calls and which is
external to this repository: solve the rectangular minimum-cost assignment
problem exactly (here by exhaustive minimisation); every row is matched when
`Q ≤ T`, every column when `Q > T`. -/
noncomputable def linear_sum_assignment (cost : List (List ℝ)) : List ℕ × List ℕ :=
  let q := cost.length
  let t := (cost.headD []).length
  if q ≤ t then
    (List.range q,
      (argminBy (fun σ => assignCost cost ((List.range q).zip σ))
        (selections q (List.range t))).getD [])
  else
    ((argminBy (fun ρ => assignCost cost (ρ.zip (List.range t)))
        (selections t (List.range q))).getD [],
      List.range t)

/-- The matcher's construction weights (`MaskFormerHungarianMatcher.__init__`
validates them not all zero; the weights themselves are plain data here). -/
structure MatcherWeights where
  cost_class : ℝ
  cost_mask : ℝ
  cost_dice : ℝ

/-- The model outputs consumed by the matcher: class logits (`preds_logits`,
batch × Q × (C+1)) and mask logits (`preds_masks`, batch × Q × H × W). -/
structure MatcherOutputs where
  preds_logits : List (List (List ℝ))
  preds_masks : List (List (List (List ℝ)))

/-- The targets consumed by the matcher: class ids (`classes`, batch × T)
and target masks (`pixel`, batch × T × Hgt × Wgt). -/
structure MatcherTargets where
  classes : List (List ℕ)
  pixel : List (List (List (List ℝ)))

namespace MaskFormerHungarianMatcher

/-- Per-sample body of the matcher loop (src lines 286-307): classification
cost `-pred_probs[:, labels]`, spatially flattened masks, pairwise focal
cost (at its default `alpha = 1/4`, `gamma = 2`) and pairwise dice cost,
their weighted sum, and the assignment of the resulting `Q × T` matrix. -/
noncomputable def matchSample (w : MatcherWeights) (pred_probs : List (List ℝ))
    (pred_mask : List (List (List ℝ))) (target_mask : List (List (List ℝ)))
    (labels : List ℕ) : List ℕ × List ℕ :=
  let cost_class := pred_probs.map fun pq => labels.map fun c => -(pq.getD c 0)
  let pred_mask_flat := pred_mask.map List.flatten
  let target_mask_flat := target_mask.map List.flatten
  let cost_mask := (pair_wise_sigmoid_focal_loss pred_mask_flat target_mask_flat (1/4) 2).getD []
  let cost_dice := pair_wise_dice_loss pred_mask_flat target_mask_flat
  let cost_matrix := zipWith2D (· + ·) (smul2D w.cost_mask cost_mask)
    (zipWith2D (· + ·) (smul2D w.cost_class cost_class) (smul2D w.cost_dice cost_dice))
  linear_sum_assignment cost_matrix

/-- The method `MaskFormerHungarianMatcher.forward` (src lines 257-312):
softmax the class logits, resample the target masks to the prediction
spatial size by nearest-neighbour interpolation, then match every sample of
the batch independently. -/
noncomputable def forward (w : MatcherWeights) (outputs : MatcherOutputs)
    (targets : MatcherTargets) : List (List ℕ × List ℕ) :=
  let preds_masks := outputs.preds_masks
  let preds_probs := outputs.preds_logits.map fun qs => qs.map softmax
  let h := ((preds_masks.headD []).headD []).length
  let w2 := (((preds_masks.headD []).headD []).headD []).length
  let labels_masks := targets.pixel.map fun ms => ms.map (interpolate_nearest h w2)
  (zip4 preds_probs preds_masks labels_masks targets.classes).map fun x =>
    matchSample w x.1 x.2.1 x.2.2.1 x.2.2.2

end MaskFormerHungarianMatcher

/-! ## Panoptic assembly (src lines 1513-1611), embedded over `ℚ`

The embedding starts where `MaskFormerForPanopticSegmentation.forward` has
already computed `mask_probs = preds_masks.sigmoid()` and
`pred_scores, pred_labels = softmax(preds_logits).max(-1)`: the assembly
consumes those probability tensors, per-query scores and per-query labels.
-/

/-- A 2D grid of rational probabilities (one query's mask). -/
abbrev Mask2D := List (List ℚ)

/-- One entry of the class registry (`ClassSpec` in `configuration_maskformer.py`). -/
structure ClassSpec where
  is_thing : Bool
  label : String
deriving DecidableEq

/-- Configuration consumed by the panoptic assembly: the no-object class id
`num_labels`, the two thresholds, and the class registry. -/
structure PanopticConfig where
  num_labels : ℕ
  object_mask_threshold : ℚ
  overlap_mask_area_threshold : ℚ
  classes : List ClassSpec
deriving DecidableEq

/-- A segment record (`PanopticSegmentationSegment` in the source). -/
structure PanopticSegmentationSegment where
  id : ℕ
  category_id : ℕ
  is_thing : Bool
  label : String
deriving DecidableEq

/-- Keep only the entries of `xs` whose positional flag in `keep` is `true`
(torch boolean-mask indexing `xs[to_keep]`). -/
def boolFilter {α : Type} (keep : List Bool) (xs : List α) : List α :=
  ((keep.zip xs).filter fun p => p.1).map fun p => p.2

/-- Python dict lookup on an association list. -/
def dictLookup (key : ℕ) : List (ℕ × ℕ) → Option ℕ
  | [] => none
  | p :: ps => if p.1 = key then some p.2 else dictLookup key ps

/-- Python dict assignment `d[key] = val` on an association list. -/
def dictInsert (key val : ℕ) : List (ℕ × ℕ) → List (ℕ × ℕ)
  | [] => [(key, val)]
  | p :: ps => if p.1 = key then (key, val) :: ps else p :: dictInsert key val ps

/-- Entry `(i, j)` of a 2D grid, defaulting out of range. -/
def entry2D {α : Type} [Inhabited α] (m : List (List α)) (i j : ℕ) : α :=
  (m.getD i []).getD j default

/-- Number of entries of a 2D grid satisfying `p` (a `(grid op x).sum()` reduction). -/
def gridCountP {α : Type} (p : α → Bool) (g : List (List α)) : ℕ :=
  (g.map fun row => row.countP p).sum

/-- Index of the first maximal entry (torch `argmax` over the query dimension:
ties return the lowest index). -/
def argmaxIdx (vals : List ℚ) : ℕ :=
  (vals.enum.foldl (fun best cur => if cur.2 > best.2 then cur else best)
    (0, vals.headD 0)).1

/-- The method `MaskFormerForPanopticSegmentation.remove_low_and_no_objects`
(src lines 1532-1539): raises when the three inputs disagree in length
(modelled as `none`), otherwise drops every query whose label is the
no-object id or whose score is not above `object_mask_threshold`. -/
def remove_low_and_no_objects (cfg : PanopticConfig) (masks : List Mask2D)
    (scores : List ℚ) (labels : List ℕ) :
    Option (List Mask2D × List ℚ × List ℕ) :=
  if masks.length = scores.length ∧ scores.length = labels.length then
    let to_keep : List Bool :=
      (labels.zip scores).map fun ls =>
        decide (ls.1 ≠ cfg.num_labels) && decide (ls.2 > cfg.object_mask_threshold)
    some (boolFilter to_keep masks, boolFilter to_keep scores, boolFilter to_keep labels)
  else none

/-- The mutable state threaded through the per-query loop of the assembly. -/
structure PanopticState where
  current_segment_id : ℕ
  stuff_memory_list : List (ℕ × ℕ)
  segmentation : List (List ℕ)
  segments : List PanopticSegmentationSegment
deriving DecidableEq

/-- Body of the per-query loop `for k in range(pred_labels.shape[0])`
(src lines 1574-1609).  `weighted` is the score-weighted probability stack
(the source's `mask_probs` after the in-place `mask_probs *= pred_scores`),
`mask_labels` the winner-take-all pixel ownership map. -/
def panopticStep (cfg : PanopticConfig) (weighted : List Mask2D)
    (mask_labels : List (List ℕ)) (pred_labels : List ℕ)
    (st : PanopticState) (k : ℕ) : PanopticState :=
  let pred_class : ℕ := pred_labels.getD k 0
  let class_spec : ClassSpec := cfg.classes.getD pred_class ⟨true, ""⟩
  let is_stuff : Bool := ! class_spec.is_thing
  let mask_k : List (List Bool) := mask_labels.map fun row => row.map fun x => decide (x = k)
  let mask_k_area : ℕ := gridCountP id mask_k
  let original_area : ℕ := gridCountP (fun x => decide ((1 : ℚ)/2 ≤ x)) (weighted.getD k [])
  if 0 < mask_k_area ∧ 0 < original_area then
    if (mask_k_area : ℚ) / (original_area : ℚ) > cfg.overlap_mask_area_threshold then
      let new_id : ℕ :=
        match dictLookup pred_class st.stuff_memory_list with
        | some sid => sid
        | none => st.current_segment_id + 1
      { current_segment_id := new_id
        stuff_memory_list :=
          if is_stuff then dictInsert pred_class new_id st.stuff_memory_list
          else st.stuff_memory_list
        segmentation :=
          List.zipWith (fun segrow krow =>
              List.zipWith (fun s b => if b then new_id else s) segrow krow)
            st.segmentation mask_k
        segments := st.segments ++
          [{ id := new_id, category_id := pred_class,
             is_thing := ! is_stuff, label := class_spec.label }] }
    else st
  else st

/-- One iteration of the batch loop of
`MaskFormerForPanopticSegmentation.forward` (src lines 1552-1611): filter,
weight by score, winner-take-all ownership, then the per-query merge loop. -/
def assembleSample (cfg : PanopticConfig) (h w : ℕ) (mask_probs : List Mask2D)
    (pred_scores : List ℚ) (pred_labels : List ℕ) :
    Option (List (List ℕ) × List PanopticSegmentationSegment) :=
  match remove_low_and_no_objects cfg mask_probs pred_scores pred_labels with
  | none => none
  | some (mask_probs, pred_scores, pred_labels) =>
    let segmentation : List (List ℕ) := List.replicate h (List.replicate w 0)
    if 0 < mask_probs.length then
      let weighted : List Mask2D :=
        List.zipWith (fun m s => m.map fun row => row.map fun x => x * s)
          mask_probs pred_scores
      let mask_labels : List (List ℕ) :=
        (List.range h).map fun i => (List.range w).map fun j =>
          argmaxIdx (weighted.map fun m => entry2D m i j)
      let st : PanopticState :=
        (List.range pred_labels.length).foldl
          (panopticStep cfg weighted mask_labels pred_labels)
          ⟨0, [], segmentation, []⟩
      some (st.segmentation, st.segments)
    else
      some (segmentation, [])

/-- Three-way `zip` over a batch. -/
def zip3 {α β γ : Type} : List α → List β → List γ → List (α × β × γ)
  | a :: as, b :: bs, c :: cs => (a, b, c) :: zip3 as bs cs
  | _, _, _ => []

namespace MaskFormerForPanopticSegmentation

/-- The batched part of `MaskFormerForPanopticSegmentation.forward`
(src lines 1541-1611), starting after `mask_probs`, `pred_scores` and
`pred_labels` have been computed from the model outputs.  The source reads
`h, w` from the prediction tensor, then iterates `zip(mask_probs,
pred_scores, pred_labels)` — but its `return` statement sits inside that
loop, so the first iteration returns; an empty batch returns `None`. -/
def forward (cfg : PanopticConfig) (mask_probs : List (List Mask2D))
    (pred_scores : List (List ℚ)) (pred_labels : List (List ℕ)) :
    Option (List (List ℕ) × List PanopticSegmentationSegment) :=
  let h : ℕ := ((mask_probs.headD []).headD []).length
  let w : ℕ := (((mask_probs.headD []).headD []).headD []).length
  match zip3 mask_probs pred_scores pred_labels with
  | [] => none
  | x :: _ => assembleSample cfg h w x.1 x.2.1 x.2.2

end MaskFormerForPanopticSegmentation

/-- Follows the spec's words (panoptic assembly step 4b): identical to
`panopticStep` except that `original_area` counts the pixels of the query's
own unweighted probability map (before the per-query score scaling), taken
from `mask_probs`. -/
def panopticStep_specArea (cfg : PanopticConfig) (mask_probs _weighted : List Mask2D)
    (mask_labels : List (List ℕ)) (pred_labels : List ℕ)
    (st : PanopticState) (k : ℕ) : PanopticState :=
  let pred_class : ℕ := pred_labels.getD k 0
  let class_spec : ClassSpec := cfg.classes.getD pred_class ⟨true, ""⟩
  let is_stuff : Bool := ! class_spec.is_thing
  let mask_k : List (List Bool) := mask_labels.map fun row => row.map fun x => decide (x = k)
  let mask_k_area : ℕ := gridCountP id mask_k
  let original_area : ℕ := gridCountP (fun x => decide ((1 : ℚ)/2 ≤ x)) (mask_probs.getD k [])
  if 0 < mask_k_area ∧ 0 < original_area then
    if (mask_k_area : ℚ) / (original_area : ℚ) > cfg.overlap_mask_area_threshold then
      let new_id : ℕ :=
        match dictLookup pred_class st.stuff_memory_list with
        | some sid => sid
        | none => st.current_segment_id + 1
      { current_segment_id := new_id
        stuff_memory_list :=
          if is_stuff then dictInsert pred_class new_id st.stuff_memory_list
          else st.stuff_memory_list
        segmentation :=
          List.zipWith (fun segrow krow =>
              List.zipWith (fun s b => if b then new_id else s) segrow krow)
            st.segmentation mask_k
        segments := st.segments ++
          [{ id := new_id, category_id := pred_class,
             is_thing := ! is_stuff, label := class_spec.label }] }
    else st
  else st

/-- Follows the spec's words: the sample assembly with the spec's unweighted
`original_area` (via `panopticStep_specArea`); everything else as in
`assembleSample`. -/
def assembleSample_unweightedArea (cfg : PanopticConfig) (h w : ℕ)
    (mask_probs : List Mask2D) (pred_scores : List ℚ) (pred_labels : List ℕ) :
    Option (List (List ℕ) × List PanopticSegmentationSegment) :=
  match remove_low_and_no_objects cfg mask_probs pred_scores pred_labels with
  | none => none
  | some (mask_probs, pred_scores, pred_labels) =>
    let segmentation : List (List ℕ) := List.replicate h (List.replicate w 0)
    if 0 < mask_probs.length then
      let weighted : List Mask2D :=
        List.zipWith (fun m s => m.map fun row => row.map fun x => x * s)
          mask_probs pred_scores
      let mask_labels : List (List ℕ) :=
        (List.range h).map fun i => (List.range w).map fun j =>
          argmaxIdx (weighted.map fun m => entry2D m i j)
      let st : PanopticState :=
        (List.range pred_labels.length).foldl
          (panopticStep_specArea cfg mask_probs weighted mask_labels pred_labels)
          ⟨0, [], segmentation, []⟩
      some (st.segmentation, st.segments)
    else
      some (segmentation, [])

/-! ## Loss normalisation count (src lines 463-470) -/

/-- Distributed-context collaborator.  Modelled from the spec:
`torch.distributed` and detectron2's `get_world_size` are external; the spec
requires only a world size and an all-reduce-sum primitive, degrading to the
local count when no distributed context is active. -/
structure DistEnv where
  dist_active : Bool
  other_counts : List ℕ
  world_size : ℕ

/-- The method `MaskFormerLoss.get_num_masks`: reads
`labels["classes"].shape[0]` — the leading (batch) dimension of the
`[batch, T]` class-id tensor — all-reduces it when a distributed context is
active, divides by the world size and clamps below at 1. -/
def get_num_masks (env : DistEnv) (classes : List (List ℕ)) : ℚ :=
  let num_masks : ℕ := classes.length
  let reduced : ℚ :=
    if env.dist_active then (num_masks : ℚ) + (env.other_counts.sum : ℚ)
    else (num_masks : ℚ)
  let ws : ℚ := if env.dist_active then (env.world_size : ℚ) else 1
  max (reduced / ws) 1

/-! ## Helper lemmas -/

theorem getD_map_of_lt {α β : Type} (f : α → β) (l : List α) (i : ℕ) (d : α) (d' : β)
    (h : i < l.length) : (l.map f).getD i d' = f (l.getD i d) := by
  induction l generalizing i with
  | nil => simp at h
  | cons x xs ih =>
    cases i with
    | zero => simp [List.getD]
    | succ n =>
      simp only [List.length_cons, Nat.succ_lt_succ_iff] at h
      simpa [List.getD] using ih n h

theorem getD_zipWith_of_lt {α β γ : Type} (f : α → β → γ) (a : List α) (b : List β) (i : ℕ)
    (da : α) (db : β) (dc : γ) (h1 : i < a.length) (h2 : i < b.length) :
    (List.zipWith f a b).getD i dc = f (a.getD i da) (b.getD i db) := by
  induction a generalizing b i with
  | nil => simp at h1
  | cons x xs ih =>
    cases b with
    | nil => simp at h2
    | cons y ys =>
      cases i with
      | zero => simp [List.getD]
      | succ n =>
        simp only [List.length_cons, Nat.succ_lt_succ_iff] at h1 h2
        simpa [List.getD] using ih ys n h1 h2

theorem zip4_length {α β γ δ : Type} (as : List α) (bs : List β) (cs : List γ) (ds : List δ) :
    (zip4 as bs cs ds).length = min as.length (min bs.length (min cs.length ds.length)) := by
  induction as generalizing bs cs ds with
  | nil => cases bs <;> cases cs <;> cases ds <;> simp [zip4]
  | cons a as ih =>
    cases bs with
    | nil => simp [zip4]
    | cons b bs =>
      cases cs with
      | nil => simp [zip4]
      | cons c cs =>
        cases ds with
        | nil => simp [zip4]
        | cons d ds =>
          simp only [zip4, List.length_cons, ih]
          omega

theorem getD_zip4_of_lt {α β γ δ : Type} (as : List α) (bs : List β) (cs : List γ) (ds : List δ)
    (i : ℕ) (da : α) (db : β) (dc : γ) (dd : δ)
    (h1 : i < as.length) (h2 : i < bs.length) (h3 : i < cs.length) (h4 : i < ds.length) :
    (zip4 as bs cs ds).getD i (da, db, dc, dd) =
      (as.getD i da, bs.getD i db, cs.getD i dc, ds.getD i dd) := by
  induction as generalizing bs cs ds i with
  | nil => simp at h1
  | cons a as ih =>
    cases bs with
    | nil => simp at h2
    | cons b bs =>
      cases cs with
      | nil => simp at h3
      | cons c cs =>
        cases ds with
        | nil => simp at h4
        | cons d ds =>
          cases i with
          | zero => simp [zip4, List.getD]
          | succ n =>
            simp only [List.length_cons, Nat.succ_lt_succ_iff] at h1 h2 h3 h4
            simpa [zip4, List.getD] using ih bs cs ds n h1 h2 h3 h4

theorem mem_selections_length : ∀ {n : ℕ} {ts σ : List ℕ}, σ ∈ selections n ts → σ.length = n := by
  intro n
  induction n with
  | zero =>
    intro ts σ h
    simp only [selections, List.mem_singleton] at h
    simp [h]
  | succ m ih =>
    intro ts σ h
    simp only [selections, List.mem_flatMap, List.mem_map] at h
    obtain ⟨t, -, σ', hσ', rfl⟩ := h
    simp [ih hσ']

theorem mem_selections_subset : ∀ {n : ℕ} {ts σ : List ℕ},
    σ ∈ selections n ts → ∀ x ∈ σ, x ∈ ts := by
  intro n
  induction n with
  | zero =>
    intro ts σ h
    simp only [selections, List.mem_singleton] at h
    simp [h]
  | succ m ih =>
    intro ts σ h x hx
    simp only [selections, List.mem_flatMap, List.mem_map] at h
    obtain ⟨t, ht, σ', hσ', rfl⟩ := h
    rcases List.mem_cons.mp hx with rfl | hx'
    · exact ht
    · exact List.mem_of_mem_erase (ih hσ' x hx')

theorem mem_selections_nodup : ∀ {n : ℕ} {ts σ : List ℕ},
    ts.Nodup → σ ∈ selections n ts → σ.Nodup := by
  intro n
  induction n with
  | zero =>
    intro ts σ _ h
    simp only [selections, List.mem_singleton] at h
    simp [h]
  | succ m ih =>
    intro ts σ hts h
    simp only [selections, List.mem_flatMap, List.mem_map] at h
    obtain ⟨t, ht, σ', hσ', rfl⟩ := h
    refine List.nodup_cons.mpr ⟨?_, ih (hts.erase t) hσ'⟩
    intro hmem
    have ht' : t ∈ ts.erase t := mem_selections_subset hσ' t hmem
    exact ((List.Nodup.mem_erase_iff hts).mp ht').1 rfl

theorem selections_exists : ∀ (n : ℕ) (ts : List ℕ), n ≤ ts.length →
    ∃ σ, σ ∈ selections n ts := by
  intro n
  induction n with
  | zero => intro ts _; exact ⟨[], by simp [selections]⟩
  | succ m ih =>
    intro ts h
    cases ts with
    | nil => simp at h
    | cons t ts' =>
      obtain ⟨σ', hσ'⟩ := ih ts' (by simpa using h)
      refine ⟨t :: σ', ?_⟩
      simp only [selections, List.mem_flatMap, List.mem_map]
      exact ⟨t, by simp, σ', by simpa [List.erase_cons_head] using hσ', rfl⟩

theorem foldl_min_mem {α : Type} (f : α → ℝ) (l : List α) :
    ∀ (xs : List α) (b : α), b ∈ l → (∀ x ∈ xs, x ∈ l) →
      xs.foldl (fun b y => if f y < f b then y else b) b ∈ l := by
  intro xs
  induction xs with
  | nil => intro b hb _; simpa using hb
  | cons x xs ih =>
    intro b hb hxs
    simp only [List.foldl_cons]
    refine ih _ ?_ fun z hz => hxs z (by simp [hz])
    by_cases hfx : f x < f b
    · rw [if_pos hfx]; exact hxs x (by simp)
    · rw [if_neg hfx]; exact hb

theorem argminBy_mem {α : Type} (f : α → ℝ) (l : List α) (hl : l ≠ []) (d : α) :
    (argminBy f l).getD d ∈ l := by
  cases l with
  | nil => exact absurd rfl hl
  | cons x xs =>
    simp only [argminBy, Option.getD_some]
    exact foldl_min_mem f (x :: xs) xs x (by simp) fun z hz => by simp [hz]

theorem linear_sum_assignment_spec (cost : List (List ℝ)) (Q T : ℕ)
    (hQ : cost.length = Q) (hT : ∀ row ∈ cost, row.length = T) :
    (linear_sum_assignment cost).1.length = min Q T ∧
    (linear_sum_assignment cost).2.length = min Q T ∧
    (linear_sum_assignment cost).1.Nodup ∧
    (linear_sum_assignment cost).2.Nodup ∧
    (∀ i ∈ (linear_sum_assignment cost).1, i < Q) ∧
    (∀ j ∈ (linear_sum_assignment cost).2, j < T) := by
  subst hQ
  cases cost with
  | nil =>
    have hnil : linear_sum_assignment [] = ([], []) := by
      unfold linear_sum_assignment
      simp [selections, argminBy]
    rw [hnil]
    simp
  | cons r rs =>
    have hr : r.length = T := hT r (by simp)
    unfold linear_sum_assignment
    simp only [List.headD_cons, hr]
    by_cases hqt : (r :: rs).length ≤ T
    · rw [if_pos hqt]
      obtain ⟨σ0, h0⟩ := selections_exists (r :: rs).length (List.range T)
        (by simpa using hqt)
      have hne : selections (r :: rs).length (List.range T) ≠ [] := List.ne_nil_of_mem h0
      have hmem := argminBy_mem
        (fun σ => assignCost (r :: rs) ((List.range (r :: rs).length).zip σ)) _ hne []
      have hlen := mem_selections_length hmem
      have hsub := mem_selections_subset hmem
      have hnd := mem_selections_nodup (List.nodup_range _) hmem
      refine ⟨?_, ?_, ?_, hnd, ?_, ?_⟩
      · simpa using (min_eq_left hqt).symm
      · rw [hlen]; exact (min_eq_left hqt).symm
      · simpa using List.nodup_range _
      · intro i hi
        exact List.mem_range.mp (by simpa using hi)
      · intro j hj
        exact List.mem_range.mp (hsub j hj)
    · rw [if_neg hqt]
      push_neg at hqt
      obtain ⟨σ0, h0⟩ := selections_exists T (List.range (r :: rs).length)
        (by simpa using hqt.le)
      have hne : selections T (List.range (r :: rs).length) ≠ [] := List.ne_nil_of_mem h0
      have hmem := argminBy_mem
        (fun ρ => assignCost (r :: rs) (ρ.zip (List.range T))) _ hne []
      have hlen := mem_selections_length hmem
      have hsub := mem_selections_subset hmem
      have hnd := mem_selections_nodup (List.nodup_range _) hmem
      refine ⟨?_, ?_, hnd, ?_, ?_, ?_⟩
      · rw [hlen]; exact (min_eq_right hqt.le).symm
      · simpa using (min_eq_right hqt.le).symm
      · simpa using List.nodup_range _
      · intro i hi
        exact List.mem_range.mp (hsub i hi)
      · intro j hj
        exact List.mem_range.mp (by simpa using hj)

theorem mem_einsum_rows (a b : List (List ℝ)) : ∀ r ∈ einsum_nm a b, r.length = b.length := by
  intro r hr
  obtain ⟨ar, -, rfl⟩ := List.mem_map.mp hr
  simp

theorem mem_zipWith2D_rows {α β γ : Type} (f : α → β → γ) (T : ℕ) :
    ∀ (A : List (List α)) (B : List (List β)),
      (∀ r ∈ A, r.length = T) → (∀ r ∈ B, r.length = T) →
      ∀ r ∈ zipWith2D f A B, r.length = T := by
  intro A
  induction A with
  | nil => intro B _ _ r hr; simp [zipWith2D] at hr
  | cons a as ih =>
    intro B hA hB r hr
    cases B with
    | nil => simp [zipWith2D] at hr
    | cons b bs =>
      simp only [zipWith2D, List.zipWith_cons_cons] at hr
      rcases List.mem_cons.mp hr with rfl | hr'
      · simp [hA a (by simp), hB b (by simp)]
      · exact ih bs (fun s hs => hA s (by simp [hs])) (fun s hs => hB s (by simp [hs])) r
          (by simpa [zipWith2D] using hr')

theorem mem_smul2D_rows (c : ℝ) (A : List (List ℝ)) (T : ℕ)
    (hA : ∀ r ∈ A, r.length = T) : ∀ r ∈ smul2D c A, r.length = T := by
  intro r hr
  obtain ⟨r0, hr0, rfl⟩ := List.mem_map.mp hr
  simp [hA r0 hr0]

theorem focal_default_getD_length (inputs labels : List (List ℝ)) :
    ((pair_wise_sigmoid_focal_loss inputs labels (1/4) 2).getD []).length = inputs.length := by
  unfold pair_wise_sigmoid_focal_loss
  rw [if_neg (by norm_num : ¬(1/4 : ℝ) < 0)]
  simp [zipWith2D, einsum_nm]

theorem focal_default_getD_rows (inputs labels : List (List ℝ)) :
    ∀ r ∈ (pair_wise_sigmoid_focal_loss inputs labels (1/4) 2).getD [],
      r.length = labels.length := by
  unfold pair_wise_sigmoid_focal_loss
  rw [if_neg (by norm_num : ¬(1/4 : ℝ) < 0)]
  simp only [Option.getD_some]
  intro r hr
  obtain ⟨r0, hr0, rfl⟩ := List.mem_map.mp hr
  simp only [List.length_map]
  refine mem_zipWith2D_rows _ labels.length _ _ ?_ ?_ r0 hr0
  · exact mem_einsum_rows _ _
  · intro s hs
    simpa using mem_einsum_rows _ _ s hs

theorem dice_length (inputs labels : List (List ℝ)) :
    (pair_wise_dice_loss inputs labels).length = inputs.length := by
  simp [pair_wise_dice_loss, zipWith2D, smul2D, einsum_nm]

theorem dice_rows (inputs labels : List (List ℝ)) :
    ∀ r ∈ pair_wise_dice_loss inputs labels, r.length = labels.length := by
  unfold pair_wise_dice_loss
  refine mem_zipWith2D_rows _ labels.length _ _ ?_ ?_
  · exact mem_smul2D_rows 2 _ _ (mem_einsum_rows _ _)
  · intro r hr
    obtain ⟨i0, -, rfl⟩ := List.mem_map.mp hr
    simp

theorem sigmoid_pos (x : ℝ) : 0 < sigmoid x := by
  unfold sigmoid
  positivity

theorem sigmoid_lt_one (x : ℝ) : sigmoid x < 1 := by
  unfold sigmoid
  rw [div_lt_one (by positivity)]
  linarith [Real.exp_pos (-x)]

theorem dot_nonneg (a b : List ℝ) (ha : ∀ x ∈ a, 0 ≤ x) (hb : ∀ x ∈ b, 0 ≤ x) :
    0 ≤ dot a b := by
  induction a generalizing b with
  | nil => simp [dot]
  | cons x xs ih =>
    cases b with
    | nil => simp [dot]
    | cons y ys =>
      have hx := ha x (by simp)
      have hy := hb y (by simp)
      have hrest := ih ys (fun z hz => ha z (by simp [hz])) (fun z hz => hb z (by simp [hz]))
      simp only [dot, List.zipWith_cons_cons, List.sum_cons] at hrest ⊢
      nlinarith

theorem two_dot_le_sum_add_sum (a b : List ℝ) (hlen : a.length = b.length)
    (ha : ∀ x ∈ a, 0 < x ∧ x < 1) (hb : ∀ x ∈ b, x = 0 ∨ x = 1) :
    2 * dot a b ≤ a.sum + b.sum := by
  induction a generalizing b with
  | nil =>
    cases b with
    | nil => simp [dot]
    | cons y ys => simp at hlen
  | cons x xs ih =>
    cases b with
    | nil => simp at hlen
    | cons y ys =>
      have hx := ha x (by simp)
      have hrest := ih ys (by simpa using hlen)
        (fun z hz => ha z (List.mem_cons_of_mem _ hz))
        (fun z hz => hb z (List.mem_cons_of_mem _ hz))
      have hy := hb y (by simp)
      simp only [dot, List.zipWith_cons_cons, List.sum_cons] at hrest ⊢
      rcases hy with hy | hy <;> subst hy <;> nlinarith [hx.1, hx.2]

/-- Entry `(q, t)` of the pairwise dice cost matrix, written pointwise. -/
theorem pair_wise_dice_loss_entry (inputs labels : List (List ℝ)) (q t : ℕ)
    (hq : q < inputs.length) (ht : t < labels.length) :
    ((pair_wise_dice_loss inputs labels).getD q []).getD t 0 =
      1 - (2 * dot ((inputs.getD q []).map sigmoid) (labels.getD t []) + 1) /
        (((inputs.getD q []).map sigmoid).sum + (labels.getD t []).sum + 1) := by
  unfold pair_wise_dice_loss zipWith2D smul2D einsum_nm
  rw [getD_zipWith_of_lt (List.zipWith fun n d => 1 - (n + 1) / (d + 1)) _ _ q [] [] []
    (by simpa using hq) (by simpa using hq)]
  rw [getD_map_of_lt (fun r => List.map (fun x => (2 : ℝ) * x) r) _ q [] []
    (by simpa using hq)]
  rw [getD_map_of_lt (fun ar => List.map (fun br => dot ar br) labels) _ q [] []
    (by simpa using hq)]
  rw [getD_map_of_lt (fun i => List.map (fun l => List.sum i + List.sum l) labels) _ q [] []
    (by simpa using hq)]
  rw [getD_map_of_lt (fun r => List.map sigmoid r) inputs q [] [] hq]
  rw [getD_zipWith_of_lt (fun n d => 1 - (n + 1) / (d + 1)) _ _ t 0 0 0
    (by simpa using ht) (by simpa using ht)]
  rw [getD_map_of_lt (fun x => (2 : ℝ) * x) _ t 0 0 (by simpa using ht)]
  rw [getD_map_of_lt (fun br => dot ((inputs.getD q []).map sigmoid) br) labels t [] 0 ht]
  rw [getD_map_of_lt (fun l => List.sum ((inputs.getD q []).map sigmoid) + List.sum l)
    labels t [] 0 ht]

/-! ## Claims C2-C6 -/

/-- C2 (amended): in the panoptic per-query loop, query `k` leaves the
segment list untouched (is skipped) exactly when it fails the test
`mask_k_area > 0 and original_area > 0 and mask_k_area / original_area >
overlap_mask_area_threshold`, where `original_area` counts the pixels at
which `k`'s *score-weighted* mask probability (after the in-place
`mask_probs *= pred_scores` of step 2) is at least 1/2. -/
theorem panopticStep_skips_iff_area_test_fails (cfg : PanopticConfig)
    (weighted : List Mask2D) (mask_labels : List (List ℕ)) (pred_labels : List ℕ)
    (st : PanopticState) (k : ℕ) :
    (panopticStep cfg weighted mask_labels pred_labels st k).segments = st.segments ↔
      ¬ (0 < gridCountP id (mask_labels.map fun row => row.map fun x => decide (x = k)) ∧
         0 < gridCountP (fun x => decide ((1 : ℚ)/2 ≤ x)) (weighted.getD k []) ∧
         cfg.overlap_mask_area_threshold <
           (gridCountP id (mask_labels.map fun row => row.map fun x => decide (x = k)) : ℚ) /
           (gridCountP (fun x => decide ((1 : ℚ)/2 ≤ x)) (weighted.getD k []) : ℚ)) := by
  constructor
  · intro hEq hcond
    obtain ⟨ha, hb, hc⟩ := hcond
    simp only [panopticStep, if_pos (And.intro ha hb), if_pos hc] at hEq
    have hlen := congrArg List.length hEq
    simp only [List.length_append, List.length_cons, List.length_nil] at hlen
    omega
  · intro hnot
    simp only [panopticStep]
    split_ifs with h1 h2 h3
    · exact absurd ⟨h1.1, h1.2, h2⟩ hnot
    · exact absurd ⟨h1.1, h1.2, h2⟩ hnot
    · rfl
    · rfl

/-- C2 (counterexample): the claim's unweighted `original_area` does not
match the code.  A single query with score 9/10 and mask probability 11/20
has weighted probability 99/200 < 1/2, so the code computes
`original_area = 0` and drops the query, while the spec's unweighted area
is 1 and would keep it. -/
theorem panoptic_original_area_weighted_cex :
    assembleSample ⟨1, 8/10, 8/10, [⟨true, "cat"⟩]⟩ 1 1 [[[11/20]]] [9/10] [0] ≠
      assembleSample_unweightedArea ⟨1, 8/10, 8/10, [⟨true, "cat"⟩]⟩ 1 1
        [[[11/20]]] [9/10] [0] := by decide!

/-- C3: two surviving queries predicting the same stuff class id 0 with
disjoint qualifying regions.  The segmentation map does carry the shared
segment id 1 on both regions, but the returned segment list contains *two*
records for the class (the reuse branch appends a duplicate record instead
of skipping), contradicting the claim's "exactly one record". -/
theorem panoptic_stuff_merge_duplicate_record :
    assembleSample ⟨1, 8/10, 8/10, [⟨false, "sky"⟩]⟩ 1 2
      [[[1, 0]], [[0, 1]]] [9/10, 9/10] [0, 0] =
      some ([[1, 1]],
        [⟨1, 0, false, "sky"⟩, ⟨1, 0, false, "sky"⟩]) := by decide!

/-- C4: reusing a stuff segment id overwrites `current_segment_id`, so a
later allocation hands out an id that is already taken.  Queries (stuff 0,
thing 1, stuff 0, thing 2) yield the id sequence 1, 2, 1 (reuse), 2 — the
freshly allocated id 2 of the last query collides with the second query's
segment, so the allocated ids are neither strictly increasing nor unique. -/
theorem panoptic_segment_id_collision :
    assembleSample ⟨3, 8/10, 8/10, [⟨false, "sky"⟩, ⟨true, "cat"⟩, ⟨true, "dog"⟩]⟩ 1 4
      [[[1, 0, 0, 0]], [[0, 1, 0, 0]], [[0, 0, 1, 0]], [[0, 0, 0, 1]]]
      [9/10, 9/10, 9/10, 9/10] [0, 1, 0, 2] =
      some ([[1, 2, 1, 2]],
        [⟨1, 0, false, "sky"⟩, ⟨2, 1, true, "cat"⟩,
         ⟨1, 0, false, "sky"⟩, ⟨2, 2, true, "dog"⟩]) := by decide!

/-- C5: `get_num_masks` reads the leading dimension of the `[batch, T]`
class tensor, i.e. the batch size, not the total number of targets.  For a
single sample carrying three targets (and no distributed context) it
returns 1 although the total target count is 3. -/
theorem get_num_masks_counts_batch_not_targets :
    get_num_masks ⟨false, [], 1⟩ [[0, 1, 2]] = 1 ∧
      (([[0, 1, 2]] : List (List ℕ)).map List.length).sum = 3 := by decide!

/-- C6: the `return` of `MaskFormerForPanopticSegmentation.forward` sits
inside the batch loop, so on any batch the forward returns after assembling
only the first sample; the remaining samples are never processed. -/
theorem panoptic_forward_returns_inside_batch_loop (cfg : PanopticConfig)
    (m : List Mask2D) (ms : List (List Mask2D))
    (s : List ℚ) (ss : List (List ℚ)) (l : List ℕ) (ls : List (List ℕ)) :
    MaskFormerForPanopticSegmentation.forward cfg (m :: ms) (s :: ss) (l :: ls) =
      assembleSample cfg ((m.headD []).length) (((m.headD []).headD []).length) m s l := rfl

/-! ## Claims C7-C10 -/

/-- C7: every entry `(q, t)` of the pairwise dice cost equals
`1 - (2 * dot(sigmoid preds_q, targets_t) + 1) /
(sum (sigmoid preds_q) + sum targets_t + 1)`. -/
theorem pair_wise_dice_loss_matches_spec_formula (inputs labels : List (List ℝ)) (q t : ℕ)
    (hq : q < inputs.length) (ht : t < labels.length) :
    ((pair_wise_dice_loss inputs labels).getD q []).getD t 0 =
      1 - (2 * dot ((inputs.getD q []).map sigmoid) (labels.getD t []) + 1) /
        (((inputs.getD q []).map sigmoid).sum + (labels.getD t []).sum + 1) :=
  pair_wise_dice_loss_entry inputs labels q t hq ht

theorem pair_wise_dice_loss_matches_spec_formula_witness :
    0 < [[(0 : ℝ)]].length ∧ 0 < [[(1 : ℝ)]].length ∧
      ((pair_wise_dice_loss [[(0 : ℝ)]] [[(1 : ℝ)]]).getD 0 []).getD 0 0 =
        1 - (2 * dot (([[(0 : ℝ)]].getD 0 []).map sigmoid) ([[(1 : ℝ)]].getD 0 []) + 1) /
          ((([[(0 : ℝ)]].getD 0 []).map sigmoid).sum + ([[(1 : ℝ)]].getD 0 []).sum + 1) :=
  ⟨by norm_num, by norm_num,
    pair_wise_dice_loss_matches_spec_formula [[(0 : ℝ)]] [[(1 : ℝ)]] 0 0
      (by norm_num) (by norm_num)⟩

/-- C8: for a fixed prediction and a fixed target, if the overlap
`dot (sigmoid pred) target` strictly increases while `sum (sigmoid pred)`
stays fixed (the target, hence `sum target`, being unchanged), the pairwise
dice cost entry strictly decreases. -/
theorem pair_wise_dice_loss_overlap_strict_anti (p p' l : List ℝ)
    (hl : ∀ x ∈ l, 0 ≤ x)
    (hsum : (p'.map sigmoid).sum = (p.map sigmoid).sum)
    (hdot : dot (p.map sigmoid) l < dot (p'.map sigmoid) l) :
    ((pair_wise_dice_loss [p'] [l]).getD 0 []).getD 0 0 <
      ((pair_wise_dice_loss [p] [l]).getD 0 []).getD 0 0 := by
  rw [pair_wise_dice_loss_entry [p'] [l] 0 0 (by simp) (by simp),
    pair_wise_dice_loss_entry [p] [l] 0 0 (by simp) (by simp)]
  simp only [List.getD_cons_zero]
  rw [hsum]
  have hS : 0 ≤ (p.map sigmoid).sum := List.sum_nonneg fun x hx => by
    obtain ⟨y, -, rfl⟩ := List.mem_map.mp hx
    exact (sigmoid_pos y).le
  have hL : 0 ≤ l.sum := List.sum_nonneg hl
  have hD : (0 : ℝ) < (p.map sigmoid).sum + l.sum + 1 := by linarith
  have key : (2 * dot (p.map sigmoid) l + 1) / ((p.map sigmoid).sum + l.sum + 1) <
      (2 * dot (p'.map sigmoid) l + 1) / ((p.map sigmoid).sum + l.sum + 1) := by
    rw [div_lt_div_iff₀ hD hD]
    nlinarith
  linarith

theorem pair_wise_dice_loss_overlap_strict_anti_witness :
    (∀ x ∈ [(1 : ℝ), 0], 0 ≤ x) ∧
      (([(1 : ℝ), 0].map sigmoid).sum = ([(0 : ℝ), 1].map sigmoid).sum) ∧
      (dot ([(0 : ℝ), 1].map sigmoid) [1, 0] < dot ([(1 : ℝ), 0].map sigmoid) [1, 0]) ∧
      ((pair_wise_dice_loss [[(1 : ℝ), 0]] [[(1 : ℝ), 0]]).getD 0 []).getD 0 0 <
        ((pair_wise_dice_loss [[(0 : ℝ), 1]] [[(1 : ℝ), 0]]).getD 0 []).getD 0 0 := by
  have h01 : sigmoid 0 < sigmoid 1 := by
    unfold sigmoid
    rw [neg_zero, Real.exp_zero]
    have he : Real.exp (-1) < 1 := by
      rw [show (1 : ℝ) = Real.exp 0 by rw [Real.exp_zero]]
      exact Real.exp_lt_exp.mpr (by norm_num)
    have h1 : (0 : ℝ) < 1 + Real.exp (-1) := by positivity
    rw [div_lt_div_iff₀ (by norm_num) h1]
    nlinarith
  have hl : ∀ x ∈ [(1 : ℝ), 0], 0 ≤ x := by norm_num
  have hsum : (([(1 : ℝ), 0].map sigmoid).sum = ([(0 : ℝ), 1].map sigmoid).sum) := by
    simp only [List.map_cons, List.map_nil, List.sum_cons, List.sum_nil]
    ring
  have hdot : dot ([(0 : ℝ), 1].map sigmoid) [1, 0] < dot ([(1 : ℝ), 0].map sigmoid) [1, 0] := by
    simpa [dot] using h01
  exact ⟨hl, hsum, hdot,
    pair_wise_dice_loss_overlap_strict_anti [(0 : ℝ), 1] [(1 : ℝ), 0] [(1 : ℝ), 0] hl hsum hdot⟩

/-- C9: the pairwise focal cost raises an invalid-argument error exactly
when `alpha < 0`; for every `alpha ≥ 0` it returns a `Q × T` matrix (whose
entries the definition divides by the flattened spatial size `hw`). -/
theorem pair_wise_sigmoid_focal_loss_alpha_guard (inputs labels : List (List ℝ))
    (alpha gamma : ℝ) :
    (pair_wise_sigmoid_focal_loss inputs labels alpha gamma = none ↔ alpha < 0) ∧
      (0 ≤ alpha → ∃ m, pair_wise_sigmoid_focal_loss inputs labels alpha gamma = some m ∧
        m.length = inputs.length ∧ ∀ i < m.length, (m.getD i []).length = labels.length) := by
  unfold pair_wise_sigmoid_focal_loss zipWith2D einsum_nm
  split_ifs with h
  · exact ⟨by simp [h], fun ha => absurd h (not_lt.mpr ha)⟩
  · refine ⟨iff_of_false (by simp) h, fun _ => ⟨_, rfl, ?_, ?_⟩⟩
    · simp
    · intro i hi
      have hi' : i < inputs.length := by
        simpa using hi
      rw [getD_map_of_lt (fun r => List.map (fun x => x / ((inputs.headD []).length : ℝ)) r)
        _ i [] [] (by simpa using hi')]
      rw [getD_zipWith_of_lt (List.zipWith fun x1 x2 => x1 + x2) _ _ i [] [] []
        (by simpa using hi') (by simpa using hi')]
      rw [getD_map_of_lt (fun ar => List.map (fun br => dot ar br) labels) _ i [] []
        (by simpa using hi')]
      rw [getD_map_of_lt
        (fun ar => List.map (fun br => dot ar br) (List.map (fun r => List.map (fun y => 1 - y) r) labels))
        _ i [] [] (by simpa using hi')]
      simp

theorem pair_wise_sigmoid_focal_loss_alpha_guard_witness :
    (0 : ℝ) ≤ 1/4 ∧
      (∃ m, pair_wise_sigmoid_focal_loss [[(0 : ℝ)]] [[(1 : ℝ)]] (1/4) 2 = some m ∧
        m.length = [[(0 : ℝ)]].length ∧
        ∀ i < m.length, (m.getD i []).length = [[(1 : ℝ)]].length) :=
  ⟨by norm_num,
    (pair_wise_sigmoid_focal_loss_alpha_guard [[(0 : ℝ)]] [[(1 : ℝ)]] (1/4) 2).2 (by norm_num)⟩

/-- C10: with binary targets and shape-compatible inputs, every entry of
the pairwise dice cost matrix lies in `[0, 1)`. -/
theorem pair_wise_dice_loss_entry_range (inputs labels : List (List ℝ)) (n q t : ℕ)
    (hin : ∀ r ∈ inputs, r.length = n) (hlab : ∀ r ∈ labels, r.length = n)
    (hbin : ∀ r ∈ labels, ∀ x ∈ r, x = 0 ∨ x = 1)
    (hq : q < inputs.length) (ht : t < labels.length) :
    0 ≤ ((pair_wise_dice_loss inputs labels).getD q []).getD t 0 ∧
      ((pair_wise_dice_loss inputs labels).getD q []).getD t 0 < 1 := by
  rw [pair_wise_dice_loss_entry inputs labels q t hq ht]
  have hqmem : inputs.getD q [] ∈ inputs := by
    rw [List.getD_eq_getElem inputs [] hq]
    exact List.getElem_mem hq
  have htmem : labels.getD t [] ∈ labels := by
    rw [List.getD_eq_getElem labels [] ht]
    exact List.getElem_mem ht
  have hamem : ∀ x ∈ (inputs.getD q []).map sigmoid, 0 < x ∧ x < 1 := by
    intro x hx
    obtain ⟨y, -, rfl⟩ := List.mem_map.mp hx
    exact ⟨sigmoid_pos y, sigmoid_lt_one y⟩
  have hbmem : ∀ x ∈ labels.getD t [], x = 0 ∨ x = 1 := hbin _ htmem
  have hlen : ((inputs.getD q []).map sigmoid).length = (labels.getD t []).length := by
    rw [List.length_map, hin _ hqmem, hlab _ htmem]
  have h2 := two_dot_le_sum_add_sum _ _ hlen hamem hbmem
  have hasum : 0 ≤ ((inputs.getD q []).map sigmoid).sum :=
    List.sum_nonneg fun x hx => (hamem x hx).1.le
  have hbsum : 0 ≤ (labels.getD t []).sum :=
    List.sum_nonneg fun x hx => by rcases hbmem x hx with h | h <;> simp [h]
  have hdot : 0 ≤ dot ((inputs.getD q []).map sigmoid) (labels.getD t []) :=
    dot_nonneg _ _ (fun x hx => (hamem x hx).1.le)
      (fun x hx => by rcases hbmem x hx with h | h <;> simp [h])
  have hD : (0 : ℝ) < ((inputs.getD q []).map sigmoid).sum + (labels.getD t []).sum + 1 := by
    linarith
  constructor
  · have hle : (2 * dot ((inputs.getD q []).map sigmoid) (labels.getD t []) + 1) /
        (((inputs.getD q []).map sigmoid).sum + (labels.getD t []).sum + 1) ≤ 1 := by
      rw [div_le_one hD]
      linarith
    linarith
  · have hpos : 0 < (2 * dot ((inputs.getD q []).map sigmoid) (labels.getD t []) + 1) /
        (((inputs.getD q []).map sigmoid).sum + (labels.getD t []).sum + 1) :=
      div_pos (by linarith) hD
    linarith

theorem pair_wise_dice_loss_entry_range_witness :
    (∀ r ∈ [[(0 : ℝ)]], r.length = 1) ∧ (∀ r ∈ [[(1 : ℝ)]], r.length = 1) ∧
      (∀ r ∈ [[(1 : ℝ)]], ∀ x ∈ r, x = 0 ∨ x = 1) ∧
      0 < [[(0 : ℝ)]].length ∧ 0 < [[(1 : ℝ)]].length ∧
      (0 ≤ ((pair_wise_dice_loss [[(0 : ℝ)]] [[(1 : ℝ)]]).getD 0 []).getD 0 0 ∧
        ((pair_wise_dice_loss [[(0 : ℝ)]] [[(1 : ℝ)]]).getD 0 []).getD 0 0 < 1) :=
  ⟨by norm_num, by norm_num, by norm_num, by norm_num, by norm_num,
    pair_wise_dice_loss_entry_range [[(0 : ℝ)]] [[(1 : ℝ)]] 1 0 0
      (by norm_num) (by norm_num) (by norm_num) (by norm_num) (by norm_num)⟩

/-! ## Claim C1 -/

theorem matchSample_spec (w : MatcherWeights) (pred_probs : List (List ℝ))
    (pred_mask target_mask : List (List (List ℝ))) (labels : List ℕ) (Q T : ℕ)
    (hpp : pred_probs.length = Q) (hpm : pred_mask.length = Q)
    (htm : target_mask.length = T) (hlab : labels.length = T) :
    (MaskFormerHungarianMatcher.matchSample w pred_probs pred_mask target_mask labels).1.length
        = min Q T ∧
    (MaskFormerHungarianMatcher.matchSample w pred_probs pred_mask target_mask labels).2.length
        = min Q T ∧
    (MaskFormerHungarianMatcher.matchSample w pred_probs pred_mask target_mask labels).1.Nodup ∧
    (MaskFormerHungarianMatcher.matchSample w pred_probs pred_mask target_mask labels).2.Nodup ∧
    (∀ i ∈ (MaskFormerHungarianMatcher.matchSample w pred_probs pred_mask target_mask labels).1,
      i < Q) ∧
    (∀ j ∈ (MaskFormerHungarianMatcher.matchSample w pred_probs pred_mask target_mask labels).2,
      j < T) := by
  unfold MaskFormerHungarianMatcher.matchSample
  refine linear_sum_assignment_spec _ Q T ?_ ?_
  · simp only [zipWith2D, smul2D, List.length_zipWith, List.length_map,
      focal_default_getD_length, dice_length, hpm, hpp]
    simp
  · refine mem_zipWith2D_rows _ T _ _ ?_ ?_
    · refine mem_smul2D_rows _ _ _ ?_
      intro r hr
      have hrow := focal_default_getD_rows (pred_mask.map List.flatten)
        (target_mask.map List.flatten) r hr
      simpa [htm] using hrow
    · refine mem_zipWith2D_rows _ T _ _ ?_ ?_
      · refine mem_smul2D_rows _ _ _ ?_
        intro r hr
        obtain ⟨pq, -, rfl⟩ := List.mem_map.mp hr
        simp [hlab]
      · refine mem_smul2D_rows _ _ _ ?_
        intro r hr
        have hrow := dice_rows (pred_mask.map List.flatten) (target_mask.map List.flatten) r hr
        simpa [htm] using hrow

/-- C1: for every batch and every sample `b` with `Q` prediction queries and
`T` targets, the Hungarian matcher's forward returns for that sample two
index arrays of equal length `min Q T`, each without duplicates, with
prediction indices in `[0, Q)` and target indices in `[0, T)`. -/
theorem matcher_forward_assignment_wellformed (w : MatcherWeights)
    (outputs : MatcherOutputs) (targets : MatcherTargets) (b Q T : ℕ)
    (hb1 : b < outputs.preds_logits.length) (hb2 : b < outputs.preds_masks.length)
    (hb3 : b < targets.pixel.length) (hb4 : b < targets.classes.length)
    (hQ1 : (outputs.preds_logits.getD b []).length = Q)
    (hQ2 : (outputs.preds_masks.getD b []).length = Q)
    (hT1 : (targets.pixel.getD b []).length = T)
    (hT2 : (targets.classes.getD b []).length = T) :
    ((MaskFormerHungarianMatcher.forward w outputs targets).getD b ([], [])).1.length
        = min Q T ∧
    ((MaskFormerHungarianMatcher.forward w outputs targets).getD b ([], [])).2.length
        = min Q T ∧
    ((MaskFormerHungarianMatcher.forward w outputs targets).getD b ([], [])).1.Nodup ∧
    ((MaskFormerHungarianMatcher.forward w outputs targets).getD b ([], [])).2.Nodup ∧
    (∀ i ∈ ((MaskFormerHungarianMatcher.forward w outputs targets).getD b ([], [])).1, i < Q) ∧
    (∀ j ∈ ((MaskFormerHungarianMatcher.forward w outputs targets).getD b ([], [])).2, j < T) := by
  unfold MaskFormerHungarianMatcher.forward
  rw [getD_map_of_lt (fun x => MaskFormerHungarianMatcher.matchSample w x.1 x.2.1 x.2.2.1 x.2.2.2)
    _ b ([], [], [], []) ([], [])
    (by rw [zip4_length]; simp only [List.length_map]; omega)]
  rw [getD_zip4_of_lt _ _ _ _ b [] [] [] []
    (by simpa using hb1) hb2 (by simpa using hb3) hb4]
  have hpp : ((outputs.preds_logits.map fun qs => qs.map softmax).getD b []).length = Q := by
    rw [getD_map_of_lt (fun qs => qs.map softmax) _ b [] [] hb1]
    simpa using hQ1
  have htm : ((targets.pixel.map fun ms => ms.map (interpolate_nearest
      ((outputs.preds_masks.headD []).headD []).length
      (((outputs.preds_masks.headD []).headD []).headD []).length)).getD b []).length = T := by
    rw [getD_map_of_lt _ _ b [] [] hb3]
    simpa using hT1
  exact matchSample_spec w _ _ _ _ Q T hpp hQ2 htm hT2

theorem matcher_forward_assignment_wellformed_witness :
    0 < ([[[(0 : ℝ)]]] : List (List (List ℝ))).length ∧
    0 < ([[[[(0 : ℝ)]]]] : List (List (List (List ℝ)))).length ∧
    0 < ([[[[(1 : ℝ)]]]] : List (List (List (List ℝ)))).length ∧
    0 < ([[(0 : ℕ)]] : List (List ℕ)).length ∧
    (([[[(0 : ℝ)]]] : List (List (List ℝ))).getD 0 []).length = 1 ∧
    (([[[[(0 : ℝ)]]]] : List (List (List (List ℝ)))).getD 0 []).length = 1 ∧
    (([[[[(1 : ℝ)]]]] : List (List (List (List ℝ)))).getD 0 []).length = 1 ∧
    (([[(0 : ℕ)]] : List (List ℕ)).getD 0 []).length = 1 ∧
    (((MaskFormerHungarianMatcher.forward ⟨1, 1, 1⟩ ⟨[[[0]]], [[[[0]]]]⟩
        ⟨[[0]], [[[[1]]]]⟩).getD 0 ([], [])).1.length = min 1 1 ∧
      ((MaskFormerHungarianMatcher.forward ⟨1, 1, 1⟩ ⟨[[[0]]], [[[[0]]]]⟩
        ⟨[[0]], [[[[1]]]]⟩).getD 0 ([], [])).2.length = min 1 1 ∧
      ((MaskFormerHungarianMatcher.forward ⟨1, 1, 1⟩ ⟨[[[0]]], [[[[0]]]]⟩
        ⟨[[0]], [[[[1]]]]⟩).getD 0 ([], [])).1.Nodup ∧
      ((MaskFormerHungarianMatcher.forward ⟨1, 1, 1⟩ ⟨[[[0]]], [[[[0]]]]⟩
        ⟨[[0]], [[[[1]]]]⟩).getD 0 ([], [])).2.Nodup ∧
      (∀ i ∈ ((MaskFormerHungarianMatcher.forward ⟨1, 1, 1⟩ ⟨[[[0]]], [[[[0]]]]⟩
        ⟨[[0]], [[[[1]]]]⟩).getD 0 ([], [])).1, i < 1) ∧
      (∀ j ∈ ((MaskFormerHungarianMatcher.forward ⟨1, 1, 1⟩ ⟨[[[0]]], [[[[0]]]]⟩
        ⟨[[0]], [[[[1]]]]⟩).getD 0 ([], [])).2, j < 1)) :=
  ⟨by decide, by decide, by decide, by decide, by decide, by decide, by decide, by decide,
    matcher_forward_assignment_wellformed ⟨1, 1, 1⟩ ⟨[[[0]]], [[[[0]]]]⟩ ⟨[[0]], [[[[1]]]]⟩
      0 1 1 (by decide) (by decide) (by decide) (by decide)
      (by decide) (by decide) (by decide) (by decide)⟩

end MaskFormer
